import Mathlib

/-!
Shallow embedding of the image-access abstraction described by the
repository's specification (the `ImageServer` family: metadata records,
eager region reads, and lazy multi-resolution pixel access).

The repository ships only notebooks that call this abstraction, so every
operation below is modelled from the specification's own description of
the facade (its data model, operation contracts, error kinds and lazy
evaluation rules).  Downsample factors are exact nonnegative rationals
represented as unnormalized numerator/denominator pairs of naturals, so
that every definition evaluates on concrete inputs.
-/

/-- Modelled from the spec: a downsample factor ("float ≥ 1") and other
exact ratios, represented as an unnormalized fraction `num / den` of
naturals.  The value is `num / den`; `den` is positive for meaningful
fractions. -/
structure Frac where
  num : Nat
  den : Nat
deriving DecidableEq, Repr

/-- Value-level order on fractions: `a ≤ b` as rationals, by
cross-multiplication. -/
def Frac.Le (a b : Frac) : Prop := a.num * b.den ≤ b.num * a.den

instance (a b : Frac) : Decidable (Frac.Le a b) := by
  unfold Frac.Le; infer_instance

/-- A well-formed downsample factor: positive denominator and value ≥ 1. -/
def Frac.IsDownsample (d : Frac) : Prop := 0 < d.den ∧ d.den ≤ d.num

instance (d : Frac) : Decidable (Frac.IsDownsample d) := by
  unfold Frac.IsDownsample; infer_instance

/-- Numerator of the absolute difference `|a - b|` of two fractions,
over the common denominator `a.den * b.den`. -/
def Frac.distNum (a b : Frac) : Nat :=
  max (a.num * b.den) (b.num * a.den) - min (a.num * b.den) (b.num * a.den)

/-- Common denominator of the absolute difference of two fractions. -/
def Frac.distDen (a b : Frac) : Nat := a.den * b.den

/-- Modelled from the spec: the rounding policy used for tile dimensions
("tile dimensions equal the requested width/height … divided by
downsample, rounded per a defined policy").  `roundHalfEvenNat a b`
rounds the exact ratio `a / b` to the nearest natural, ties to even
(Python's `round`). -/
def roundHalfEvenNat (a b : Nat) : Nat :=
  let q := a / b
  let r := a % b
  if 2 * r < b then q
  else if b < 2 * r then q + 1
  else if q % 2 = 0 then q else q + 1

/-- Modelled from the spec: the pixel element type of an image. -/
inductive DType
  | uint8
  | uint16
  | float32
  | float64
deriving DecidableEq, Repr

/-- Modelled from the spec: the shape of one pyramid level, "a tuple of
dimension sizes" over the axes x (width), y (height), z (slices),
c (channels) and t (timepoints). -/
structure ImageShape where
  x : Nat
  y : Nat
  z : Nat
  c : Nat
  t : Nat
deriving DecidableEq, Repr, Inhabited

/-- Modelled from the spec: pixel calibration, the "physical length per
pixel on x/y axes". -/
structure PixelCalibration where
  length_x : Frac
  length_y : Frac
deriving DecidableEq, Repr

/-- Modelled from the spec: the static metadata record of an image —
path, name, ordered per-level shapes, pixel calibration, pixel element
type and channel descriptions.  Downsample factors and the level count
are derived below, per the glossary ("Downsample factor: ratio between a
level's resolution and the native (level 0) resolution"). -/
structure ImageMetadata where
  path : String
  name : String
  shapes : List ImageShape
  pixel_calibration : PixelCalibration
  dtype : DType
  channels : List String
deriving DecidableEq, Repr

/-- Modelled from the spec: "count of resolution levels". -/
def ImageMetadata.n_resolutions (m : ImageMetadata) : Nat := m.shapes.length

/-- The full-resolution (level 0) shape of the image. -/
def ImageMetadata.fullShape (m : ImageMetadata) : ImageShape := m.shapes.headD default

/-- Modelled from the spec: "ordered sequence of downsample factors (one
per level)", each the ratio between the native width and that level's
width. -/
def ImageMetadata.downsamples (m : ImageMetadata) : List Frac :=
  m.shapes.map (fun sh => { num := m.fullShape.x, den := sh.x })

/-- Modelled from the spec: error kinds surfaced by the facade. -/
inductive ImageError
  | unsupportedFormat
  | invalidLevel
  | outOfBounds
  | backendUnavailable
deriving DecidableEq, Repr

/-- Modelled from the spec: an `ImageServer` — a metadata record owned by
the server together with the backing pixel source.  `pix L c y x` is the
stored pixel value of channel `c` at position `(y, x)` of pyramid level
`L` (simple images: one timepoint and one z-slice).  `chunkH`/`chunkW`
are the chunk sizes of the lazy task graph ("keyed by chunk
coordinates"). -/
structure ImageServer where
  metadata : ImageMetadata
  pix : Nat → Nat → Nat → Nat → Int
  chunkH : Nat
  chunkW : Nat

/-- Well-formedness of a server: at least one level, positive level
dimensions, level widths non-increasing down the pyramid (levels are
ordered from native to coarsest), and positive chunk sizes. -/
def validServer (s : ImageServer) : Prop :=
  s.metadata.shapes ≠ [] ∧
  (∀ sh ∈ s.metadata.shapes, 0 < sh.x ∧ 0 < sh.y) ∧
  List.Pairwise (fun a b => b.x ≤ a.x) s.metadata.shapes ∧
  0 < s.chunkH ∧ 0 < s.chunkW

instance (s : ImageServer) : Decidable (validServer s) := by
  unfold validServer; infer_instance

/-- Modelled from the spec: a pixel tile / realized array, "a dense array
with channel-first layout (channels, height, width)" of a declared
dtype.  `val c i j` is the element at channel `c`, row `i`, column `j`. -/
structure Tensor where
  nc : Nat
  nh : Nat
  nw : Nat
  dtype : DType
  val : Nat → Nat → Nat → Int

/-- Two tensors hold identical pixel values: same dimensions, same dtype,
and equal elements at every in-range index. -/
def Tensor.eqOn (a b : Tensor) : Prop :=
  a.nc = b.nc ∧ a.nh = b.nh ∧ a.nw = b.nw ∧ a.dtype = b.dtype ∧
  ∀ c < a.nc, ∀ i < a.nh, ∀ j < a.nw, a.val c i j = b.val c i j

instance (a b : Tensor) : Decidable (Tensor.eqOn a b) := by
  unfold Tensor.eqOn; infer_instance

instance {e a : Type} [DecidableEq e] [DecidableEq a] : DecidableEq (Except e a)
  | .ok v, .ok w => decidable_of_iff (v = w) (by simp)
  | .error v, .error w => decidable_of_iff (v = w) (by simp)
  | .ok _, .error _ => isFalse (fun h => Except.noConfusion h)
  | .error _, .ok _ => isFalse (fun h => Except.noConfusion h)

/-- One region-read I/O operation issued against the backing source:
pyramid level and the rectangle read at that level. -/
structure RegionRead where
  level : Nat
  x : Nat
  y : Nat
  w : Nat
  h : Nat
deriving DecidableEq, Repr

/-- Helper for `nearestLevel`: scan the remaining downsamples, keeping
the index `bi` of the factor nearest to `d` seen so far, whose distance
to `d` is `bn / bd`. -/
def nearestLevelAux (d : Frac) : List Frac → Nat → Nat → Nat → Nat → Nat
  | [], _, bi, _, _ => bi
  | f :: rest, i, bi, bn, bd =>
    if f.distNum d * bd < bn * f.distDen d then
      nearestLevelAux d rest (i + 1) i (f.distNum d) (f.distDen d)
    else
      nearestLevelAux d rest (i + 1) bi bn bd

/-- Modelled from the spec: the stored level "nearest" to a requested
downsample factor (earliest level on ties). -/
def nearestLevel (dss : List Frac) (d : Frac) : Nat :=
  match dss with
  | [] => 0
  | d0 :: rest => nearestLevelAux d rest 1 0 (d0.distNum d) (d0.distDen d)

/-- Modelled from the spec: whether a requested rectangle (x/y offset in
pixel coordinates of the full-resolution frame, width/height in pixels)
intersects the image extent. -/
def intersectsExtent (s : ImageServer) (x y : Int) (w h : Nat) : Prop :=
  max x 0 < min (x + w) (s.metadata.fullShape.x : Int) ∧
  max y 0 < min (y + h) (s.metadata.fullShape.y : Int)

instance (s : ImageServer) (x y : Int) (w h : Nat) :
    Decidable (intersectsExtent s x y w h) := by
  unfold intersectsExtent; infer_instance

/-- Modelled from the spec: `read_region(downsample, x, y, width,
height)` — synchronous eager fetch of a rectangular pixel tile.  The
offsets are pixel coordinates in the full-resolution frame; a rectangle
that does not intersect the image extent fails with `OutOfBounds`, a
partially overlapping rectangle is silently clamped to the valid extent.
The read is served by the stored level nearest to the requested
downsample, resized (nearest neighbour) to the requested scale; output
spatial dimensions are the clamped width/height divided by the
downsample, rounded.  (The spec's defaults `x = y = 0`,
`width`/`height` = full extent are instantiated by callers.) -/
def readRegion (s : ImageServer) (d : Frac) (x y : Int) (w h : Nat) :
    Except ImageError Tensor :=
  let W := s.metadata.fullShape.x
  let H := s.metadata.fullShape.y
  let xa := max x 0
  let ya := max y 0
  let xb := min (x + w) (W : Int)
  let yb := min (y + h) (H : Int)
  if xb ≤ xa ∨ yb ≤ ya then .error .outOfBounds
  else
    let wc := (xb - xa).toNat
    let hc := (yb - ya).toNat
    let L := nearestLevel s.metadata.downsamples d
    let ds := s.metadata.downsamples.getD L { num := 1, den := 1 }
    let shL := s.metadata.shapes.getD L default
    let xL := roundHalfEvenNat (xa.toNat * ds.den) ds.num
    let yL := roundHalfEvenNat (ya.toNat * ds.den) ds.num
    let wL := roundHalfEvenNat (wc * ds.den) ds.num
    let hL := roundHalfEvenNat (hc * ds.den) ds.num
    let wOut := roundHalfEvenNat (wc * d.den) d.num
    let hOut := roundHalfEvenNat (hc * d.den) d.num
    .ok
      { nc := shL.c
        nh := hOut
        nw := wOut
        dtype := s.metadata.dtype
        val := fun c i j =>
          s.pix L c (yL + i * hL / hOut) (xL + j * wL / wOut) }

/-- The data source of a lazy array: either one stored pyramid level read
chunk by chunk, or a full eager read of a stored level resized from
source dimensions `(srcH, srcW)` to output dimensions `(outH, outW)`. -/
inductive LazySource
  | level (L : Nat)
  | resampled (L : Nat) (srcH srcW outH outW : Nat)
deriving DecidableEq, Repr

/-- Modelled from the spec: a lazy array — "a graph of deferred
slice/compute operations over a declared shape and dtype".  `t`/`z` are
the (unsliced) leading dimensions, and `c0 ≤ c1`, `y0 ≤ y1`, `x0 ≤ x1`
are the current half-open slice bounds on the channel and spatial axes. -/
structure DaskArray where
  source : LazySource
  t : Nat
  z : Nat
  c0 : Nat
  c1 : Nat
  y0 : Nat
  y1 : Nat
  x0 : Nat
  x1 : Nat
deriving DecidableEq, Repr

/-- The presented shape of a lazy array: axes ordered (t, c, z, y, x),
with singleton t and z dimensions dropped; y and x are always present. -/
def DaskArray.dims (a : DaskArray) : List Nat :=
  (if a.t = 1 then [] else [a.t]) ++ [a.c1 - a.c0] ++
    (if a.z = 1 then [] else [a.z]) ++ [a.y1 - a.y0, a.x1 - a.x0]

/-- Modelled from the spec: `level_to_dask(level)` — a lazy array over
exactly that stored resolution level; a level index out of range fails
with `InvalidLevel`. -/
def levelToDask (s : ImageServer) (L : Nat) : Except ImageError DaskArray :=
  if h : L < s.metadata.n_resolutions then
    let sh := s.metadata.shapes.get ⟨L, h⟩
    .ok
      { source := .level L
        t := sh.t
        z := sh.z
        c0 := 0
        c1 := sh.c
        y0 := 0
        y1 := sh.y
        x0 := 0
        x1 := sh.x }
  else .error .invalidLevel

/-- The full output shape of `to_dask(d)`: the native spatial extent
divided by `d` (rounded), other axes taken from the nearest stored
level. -/
def toDaskShape (s : ImageServer) (d : Frac) : ImageShape :=
  let L := nearestLevel s.metadata.downsamples d
  let shL := s.metadata.shapes.getD L default
  { x := roundHalfEvenNat (s.metadata.fullShape.x * d.den) d.num
    y := roundHalfEvenNat (s.metadata.fullShape.y * d.den) d.num
    z := shL.z
    c := shL.c
    t := shL.t }

/-- Modelled from the spec: `to_dask(downsample)` — a lazy array
resampled to an arbitrary downsample, "implemented by reading the
nearest stored level eagerly in full and resizing". -/
def toDask (s : ImageServer) (d : Frac) : DaskArray :=
  let L := nearestLevel s.metadata.downsamples d
  let shL := s.metadata.shapes.getD L default
  let out := toDaskShape s d
  { source := .resampled L shL.y shL.x out.y out.x
    t := shL.t
    z := shL.z
    c0 := 0
    c1 := shL.c
    y0 := 0
    y1 := out.y
    x0 := 0
    x1 := out.x }

/-- Modelled from the spec: slicing a lazy array on its y and x axes
(`arr[:, ya:yb, xa:xb]`, numpy half-open semantics) — "slicing before
realization narrows the graph without performing I/O".  Returns the
narrowed array together with the (empty) list of reads performed. -/
def sliceYX (a : DaskArray) (ya yb xa xb : Nat) : DaskArray × List RegionRead :=
  ({ a with
      y0 := min (a.y0 + ya) a.y1
      y1 := min (a.y0 + yb) a.y1
      x0 := min (a.x0 + xa) a.x1
      x1 := min (a.x0 + xb) a.x1 }, [])

/-- Indices of the chunks of size `ch` covering `[0, hi)` that intersect
the half-open interval `[lo, hi)`. -/
def chunkCover (lo hi ch : Nat) : List Nat :=
  (List.range ((hi + ch - 1) / ch)).filter
    (fun i => ch * i < hi ∧ lo < ch * (i + 1))

/-- Modelled from the spec: the region reads triggered by realizing a
lazy array.  A `level` source reads exactly the chunks of the task graph
that intersect the current slice; a `resampled` source reads the whole
nearest stored level "regardless of requested sub-region". -/
def computeReads (s : ImageServer) (a : DaskArray) : List RegionRead :=
  match a.source with
  | .level L =>
    (chunkCover a.y0 a.y1 s.chunkH).flatMap (fun i =>
      (chunkCover a.x0 a.x1 s.chunkW).map (fun j =>
        { level := L, x := s.chunkW * j, y := s.chunkH * i,
          w := s.chunkW, h := s.chunkH }))
  | .resampled L srcH srcW _ _ =>
    [{ level := L, x := 0, y := 0, w := srcW, h := srcH }]

/-- Modelled from the spec: the pixel values produced by realizing a lazy
array over its current slice (channel-first layout).  A `level` source
yields the stored pixels of that level; a `resampled` source yields the
nearest-neighbour resize of the stored level. -/
def computeVals (s : ImageServer) (a : DaskArray) : Tensor :=
  match a.source with
  | .level L =>
    { nc := a.c1 - a.c0
      nh := a.y1 - a.y0
      nw := a.x1 - a.x0
      dtype := s.metadata.dtype
      val := fun c i j => s.pix L (a.c0 + c) (a.y0 + i) (a.x0 + j) }
  | .resampled L srcH srcW outH outW =>
    { nc := a.c1 - a.c0
      nh := a.y1 - a.y0
      nw := a.x1 - a.x0
      dtype := s.metadata.dtype
      val := fun c i j =>
        s.pix L (a.c0 + c) ((a.y0 + i) * srcH / outH) ((a.x0 + j) * srcW / outW) }

/-- Modelled from the spec: realization ("compute") of a lazy array — the
realized pixel tensor together with the region reads it triggers. -/
def compute (s : ImageServer) (a : DaskArray) : Tensor × List RegionRead :=
  (computeVals s a, computeReads s a)

/-- Modelled from the spec: the color-profile-transforming decorator
(`IccProfileServer`) — wraps another server, exposes the same metadata
record, and transforms every pixel value through the profile's
transform. -/
def iccProfileServer (s : ImageServer) (transform : Int → Int) : ImageServer :=
  { s with pix := fun L c y x => transform (s.pix L c y x) }

/-- Modelled from the spec: a per-level shape "reordered to
channel-first-then-spatial form" (for a simple image with one timepoint
and one z-slice): `(c, y, x)`. -/
def channelFirstSpatial (sh : ImageShape) : List Nat := [sh.c, sh.y, sh.x]

/-- The axis order (t, c, z, y, x) of a shape, with singleton t and z
dimensions dropped. -/
def tczyxOrder (sh : ImageShape) : List Nat :=
  (if sh.t = 1 then [] else [sh.t]) ++ [sh.c] ++
    (if sh.z = 1 then [] else [sh.z]) ++ [sh.y, sh.x]

/-- A concrete single-level 4×4 grayscale server used as evaluation
witness. -/
def exS1 : ImageServer :=
  { metadata :=
      { path := "/tmp/tiny.tiff"
        name := "tiny"
        shapes := [{ x := 4, y := 4, z := 1, c := 1, t := 1 }]
        pixel_calibration :=
          { length_x := { num := 1, den := 1 }, length_y := { num := 1, den := 1 } }
        dtype := .uint8
        channels := ["gray"] }
    pix := fun L c y x => (L : Int) * 1000 + (c : Int) * 100 + (y : Int) * 10 + x
    chunkH := 2
    chunkW := 2 }

/-- The full level-0 lazy array of `exS1`, as `levelToDask` builds it. -/
def exArr1 : DaskArray :=
  { source := .level 0, t := 1, z := 1, c0 := 0, c1 := 1,
    y0 := 0, y1 := 4, x0 := 0, x1 := 4 }

/-- A concrete two-level pyramidal server (4×4 native, 2×2 at downsample
two) used as evaluation witness and counterexample carrier. -/
def exS2 : ImageServer :=
  { metadata :=
      { path := "/tmp/pyramid.tiff"
        name := "pyramid"
        shapes :=
          [{ x := 4, y := 4, z := 1, c := 1, t := 1 },
           { x := 2, y := 2, z := 1, c := 1, t := 1 }]
        pixel_calibration :=
          { length_x := { num := 1, den := 1 }, length_y := { num := 1, den := 1 } }
        dtype := .uint8
        channels := ["gray"] }
    pix := fun L c y x => (L : Int) * 1000 + (c : Int) * 100 + (y : Int) * 10 + x
    chunkH := 2
    chunkW := 2 }

/-- The full level-1 lazy array of `exS2`, as `levelToDask` builds it. -/
def exArrL1 : DaskArray :=
  { source := .level 1, t := 1, z := 1, c0 := 0, c1 := 1,
    y0 := 0, y1 := 2, x0 := 0, x1 := 2 }

/-! ## Helper lemmas -/

theorem roundHalfEvenNat_mul_cancel (a b : Nat) (hb : 0 < b) :
    roundHalfEvenNat (a * b) b = a := by
  have h1 : a * b / b = a := Nat.mul_div_cancel a hb
  have h2 : a * b % b = 0 := Nat.mul_mod_left a b
  simp [roundHalfEvenNat, h1, h2, hb]

theorem Frac.distNum_self (a : Frac) : Frac.distNum a a = 0 := by
  simp [Frac.distNum]

theorem nearestLevelAux_zero (d : Frac) (rest : List Frac) : ∀ (i bi bd : Nat),
    nearestLevelAux d rest i bi 0 bd = bi := by
  induction rest with
  | nil => intro i bi bd; rfl
  | cons f rest ih =>
    intro i bi bd
    unfold nearestLevelAux
    rw [if_neg (by simp)]
    exact ih _ _ _

theorem nearestLevel_head_self (d0 : Frac) (rest : List Frac) (d : Frac)
    (h : d0.distNum d = 0) : nearestLevel (d0 :: rest) d = 0 := by
  simp only [nearestLevel, h]
  exact nearestLevelAux_zero d rest 1 0 _

theorem downsamples_head_self (m : ImageMetadata) (sh : ImageShape)
    (rest : List ImageShape) (hsh : m.shapes = sh :: rest) :
    nearestLevel m.downsamples (m.downsamples.getD 0 { num := 1, den := 1 }) = 0 := by
  unfold ImageMetadata.downsamples
  rw [hsh, List.map_cons, List.getD_cons_zero]
  exact nearestLevel_head_self _ _ _ (Frac.distNum_self _)

theorem nearestLevel_downsamples_one (m : ImageMetadata) (hne : m.shapes ≠ []) :
    nearestLevel m.downsamples { num := 1, den := 1 } = 0 := by
  obtain ⟨sh, rest, hsh⟩ := List.exists_cons_of_ne_nil hne
  unfold ImageMetadata.downsamples
  rw [hsh, List.map_cons]
  refine nearestLevel_head_self _ _ _ ?_
  simp [Frac.distNum, ImageMetadata.fullShape, hsh]

theorem shapes_getD_eq_get (m : ImageMetadata) (L : Nat)
    (h : L < m.shapes.length) :
    m.shapes.getD L default = m.shapes.get ⟨L, h⟩ := by
  rw [List.getD_eq_getElem?_getD, List.getElem?_eq_getElem h]
  rfl

/-! ## Claim theorems -/

/-- Claim C2: every accepted `read_region(d, x, y, w, h)` call returns a
dense channel-first tile — dimensions (channels, height, width) — whose
dtype equals the metadata dtype and whose spatial dimensions are the
clamped requested height/width divided by the downsample and rounded;
when the rectangle lies fully inside the extent they are exactly
`(round(h/d), round(w/d))`. -/
theorem read_region_tile_layout (s : ImageServer) (d : Frac) (x y : Int)
    (w h : Nat) (t : Tensor) (hok : readRegion s d x y w h = Except.ok t) :
    t.dtype = s.metadata.dtype ∧
    t.nc = (s.metadata.shapes.getD (nearestLevel s.metadata.downsamples d) default).c ∧
    t.nh = roundHalfEvenNat
      ((min (y + h) (s.metadata.fullShape.y : Int) - max y 0).toNat * d.den) d.num ∧
    t.nw = roundHalfEvenNat
      ((min (x + w) (s.metadata.fullShape.x : Int) - max x 0).toNat * d.den) d.num ∧
    (0 ≤ x → 0 ≤ y → x + w ≤ (s.metadata.fullShape.x : Int) →
      y + h ≤ (s.metadata.fullShape.y : Int) →
      t.nh = roundHalfEvenNat (h * d.den) d.num ∧
      t.nw = roundHalfEvenNat (w * d.den) d.num) := by
  simp only [readRegion] at hok
  split at hok
  · exact Except.noConfusion hok
  · injection hok with hok
    subst hok
    refine ⟨rfl, rfl, rfl, rfl, ?_⟩
    intro hx hy hxw hyh
    have h1 : (min (y + (h : Int)) ((s.metadata.fullShape.y : Nat) : Int) - max y 0).toNat = h := by
      omega
    have h2 : (min (x + (w : Int)) ((s.metadata.fullShape.x : Nat) : Int) - max x 0).toNat = w := by
      omega
    rw [h1, h2]
    exact ⟨rfl, rfl⟩

/-- Witness for C2: a concrete accepted call on the sample server. -/
theorem read_region_tile_layout_witness :
    ∃ t, readRegion exS1 { num := 1, den := 1 } 0 0 4 4 = Except.ok t ∧
      t.dtype = exS1.metadata.dtype := by
  refine ⟨_, rfl, ?_⟩
  exact (read_region_tile_layout exS1 { num := 1, den := 1 } 0 0 4 4 _ rfl).1

/-- Claim C3: `read_region` fails with `OutOfBounds` exactly when the
requested rectangle does not intersect the image extent; whenever the
rectangle intersects the extent (including partial overlap, which is
clamped) the call succeeds. -/
theorem read_region_out_of_bounds_iff (s : ImageServer) (d : Frac) (x y : Int)
    (w h : Nat) :
    (readRegion s d x y w h = Except.error ImageError.outOfBounds ↔
      ¬ intersectsExtent s x y w h) ∧
    (intersectsExtent s x y w h → ∃ t, readRegion s d x y w h = Except.ok t) := by
  constructor
  · simp only [readRegion]
    split
    · rename_i hc
      simp only [intersectsExtent]
      constructor
      · intro _
        omega
      · intro _
        trivial
    · rename_i hc
      simp only [intersectsExtent]
      constructor
      · intro hcontra
        exact Except.noConfusion hcontra
      · intro hni
        exfalso
        omega
  · intro hi
    unfold intersectsExtent at hi
    simp only [readRegion]
    rw [if_neg (by omega)]
    exact ⟨_, rfl⟩

/-- Witness for C3: a partially out-of-bounds rectangle on the sample
server is clamped and succeeds. -/
theorem read_region_out_of_bounds_iff_witness :
    ∃ t, readRegion exS1 { num := 1, den := 1 } (-1) (-1) 3 3 = Except.ok t :=
  (read_region_out_of_bounds_iff exS1 { num := 1, den := 1 } (-1) (-1) 3 3).2
    (by decide)

/-- Claim C4: `level_to_dask(L)` fails with `InvalidLevel` for every
`L ≥ metadata.n_resolutions`, and for every `L < metadata.n_resolutions`
succeeds with a lazy array over exactly stored level `L` (its source is
level `L` and its bounds are that level's full extent). -/
theorem level_to_dask_invalid_level_iff (s : ImageServer) (L : Nat) :
    (s.metadata.n_resolutions ≤ L →
      levelToDask s L = Except.error ImageError.invalidLevel) ∧
    (L < s.metadata.n_resolutions →
      ∃ arr, levelToDask s L = Except.ok arr ∧ arr.source = LazySource.level L ∧
        arr.c0 = 0 ∧ arr.c1 = (s.metadata.shapes.getD L default).c ∧
        arr.y0 = 0 ∧ arr.y1 = (s.metadata.shapes.getD L default).y ∧
        arr.x0 = 0 ∧ arr.x1 = (s.metadata.shapes.getD L default).x) := by
  constructor
  · intro hL
    unfold levelToDask
    rw [dif_neg (by omega)]
  · intro hL
    unfold levelToDask
    rw [dif_pos hL]
    rw [shapes_getD_eq_get s.metadata L hL]
    exact ⟨_, rfl, rfl, rfl, rfl, rfl, rfl, rfl, rfl⟩

/-- Witness for C4: both branches on the concrete two-level server. -/
theorem level_to_dask_invalid_level_iff_witness :
    levelToDask exS2 2 = Except.error ImageError.invalidLevel :=
  (level_to_dask_invalid_level_iff exS2 2).1 (by decide)

theorem dims_split (a : DaskArray) :
    a.dims = ((if a.t = 1 then [] else [a.t]) ++ (a.c1 - a.c0) ::
      (if a.z = 1 then [] else [a.z])) ++ [a.y1 - a.y0, a.x1 - a.x0] := by
  simp [DaskArray.dims, List.append_assoc]

/-- Claim C5: for a simple image (one timepoint, one z-slice) the shape
of `level_to_dask(L)` equals `metadata.shapes[L]` reordered to
channel-first-then-spatial form `(c, y, x)`; the right-hand side is a
function of the metadata alone, so the shape is available before any
pixel values are read. -/
theorem level_to_dask_shape_channel_first (s : ImageServer) (L : Nat)
    (arr : DaskArray) (hok : levelToDask s L = Except.ok arr)
    (ht : (s.metadata.shapes.getD L default).t = 1)
    (hz : (s.metadata.shapes.getD L default).z = 1) :
    arr.dims = channelFirstSpatial (s.metadata.shapes.getD L default) := by
  unfold levelToDask at hok
  split at hok
  · rename_i hL
    injection hok with hok
    subst hok
    rw [shapes_getD_eq_get s.metadata L hL] at ht hz ⊢
    simp only [List.get_eq_getElem] at ht hz
    simp [DaskArray.dims, channelFirstSpatial, ht, hz]
  · exact Except.noConfusion hok

/-- Witness for C5: the level-0 array of the sample server has shape
(1, 4, 4) = channel-first-then-spatial of its metadata shape. -/
theorem level_to_dask_shape_channel_first_witness :
    exArr1.dims = channelFirstSpatial (exS1.metadata.shapes.getD 0 default) :=
  level_to_dask_shape_channel_first exS1 0 exArr1 rfl rfl rfl

/-- Claim C9: for every well-formed server, the metadata record has as
many downsample factors as per-level shapes (both equal to
`n_resolutions`) and the downsample sequence is monotonically
non-decreasing.  (The record is a plain immutable value in this model:
no operation below ever produces a modified metadata record.) -/
theorem metadata_invariants (s : ImageServer) (hv : validServer s) :
    s.metadata.downsamples.length = s.metadata.shapes.length ∧
    s.metadata.shapes.length = s.metadata.n_resolutions ∧
    List.Pairwise Frac.Le s.metadata.downsamples := by
  obtain ⟨hne, hpos, hsort, -, -⟩ := hv
  refine ⟨List.length_map _ _, rfl, ?_⟩
  unfold ImageMetadata.downsamples
  rw [List.pairwise_map]
  exact hsort.imp (fun h => Nat.mul_le_mul_left _ h)

/-- Witness for C9: the invariants hold on the concrete two-level
pyramid. -/
theorem metadata_invariants_witness :
    List.Pairwise Frac.Le exS2.metadata.downsamples :=
  (metadata_invariants exS2 (by decide)).2.2

/-- Claim C10: every array returned by `level_to_dask` or `to_dask`
presents its axes in (t, c, z, y, x) order with singleton t and z
dimensions dropped, and the y and x axes are always the trailing two,
present even when their size is one. -/
theorem dask_dims_tczyx (s : ImageServer) (L : Nat) (arr : DaskArray)
    (d : Frac) (hok : levelToDask s L = Except.ok arr) :
    (arr.dims = tczyxOrder (s.metadata.shapes.getD L default) ∧
      ∃ p, arr.dims = p ++ [(s.metadata.shapes.getD L default).y,
                            (s.metadata.shapes.getD L default).x]) ∧
    ((toDask s d).dims = tczyxOrder (toDaskShape s d) ∧
      ∃ p, (toDask s d).dims = p ++ [(toDaskShape s d).y, (toDaskShape s d).x]) := by
  constructor
  · unfold levelToDask at hok
    split at hok
    · rename_i hL
      injection hok with hok
      subst hok
      rw [shapes_getD_eq_get s.metadata L hL]
      constructor
      · simp [DaskArray.dims, tczyxOrder]
      · exact ⟨_, dims_split _⟩
    · exact Except.noConfusion hok
  · constructor
    · simp [toDask, DaskArray.dims, tczyxOrder, toDaskShape]
    · exact ⟨_, dims_split _⟩

/-- Witness for C10: dimension order on the concrete sample server. -/
theorem dask_dims_tczyx_witness :
    exArr1.dims = tczyxOrder (exS1.metadata.shapes.getD 0 default) :=
  (dask_dims_tczyx exS1 0 exArr1 { num := 2, den := 1 } rfl).1.1

/-- Claim C7: wrapping any server in the color-profile decorator
preserves the whole metadata record (in particular `shapes` and
`downsamples`), while the pixel values returned by region reads may
differ (witnessed by a concrete server and transform). -/
theorem icc_profile_preserves_metadata :
    (∀ (s : ImageServer) (f : Int → Int),
      (iccProfileServer s f).metadata = s.metadata ∧
      (iccProfileServer s f).metadata.shapes = s.metadata.shapes ∧
      (iccProfileServer s f).metadata.downsamples = s.metadata.downsamples) ∧
    (∃ (s : ImageServer) (f : Int → Int) (t1 t2 : Tensor),
      readRegion (iccProfileServer s f) { num := 1, den := 1 } 0 0 1 1 =
        Except.ok t1 ∧
      readRegion s { num := 1, den := 1 } 0 0 1 1 = Except.ok t2 ∧
      ¬ Tensor.eqOn t1 t2) := by
  constructor
  · intro s f
    exact ⟨rfl, rfl, rfl⟩
  · refine ⟨exS1, fun v => v + 1, _, _, rfl, rfl, ?_⟩
    decide

/-- Claim C8: slicing a lazy array performs no region read; realizing a
slice of `level_to_dask(L)` triggers only reads at level `L` whose
rectangles intersect the requested slice (the chunks of the task graph
meeting it); realizing any slice of `to_dask(d)` triggers exactly the
same reads as realizing the unsliced array — a single full read of the
nearest stored level — regardless of the slice. -/
theorem compute_reads_discipline (s : ImageServer) (L : Nat) (arr : DaskArray)
    (ya yb xa xb : Nat) (r : RegionRead) (d : Frac)
    (hok : levelToDask s L = Except.ok arr)
    (hr : r ∈ (compute s (sliceYX arr ya yb xa xb).1).2) :
    (sliceYX arr ya yb xa xb).2 = [] ∧
    (r.level = L ∧
      r.y < min (arr.y0 + yb) arr.y1 ∧ min (arr.y0 + ya) arr.y1 < r.y + r.h ∧
      r.x < min (arr.x0 + xb) arr.x1 ∧ min (arr.x0 + xa) arr.x1 < r.x + r.w) ∧
    ((compute s (sliceYX (toDask s d) ya yb xa xb).1).2 =
        (compute s (toDask s d)).2 ∧
      (compute s (toDask s d)).2 =
        [{ level := nearestLevel s.metadata.downsamples d, x := 0, y := 0,
           w := (s.metadata.shapes.getD (nearestLevel s.metadata.downsamples d)
                  default).x,
           h := (s.metadata.shapes.getD (nearestLevel s.metadata.downsamples d)
                  default).y }]) := by
  refine ⟨rfl, ?_, rfl, rfl⟩
  unfold levelToDask at hok
  split at hok
  · rename_i hL
    injection hok with hok
    subst hok
    simp only [compute, sliceYX, computeReads, List.mem_flatMap, List.mem_map,
      chunkCover, List.mem_filter, List.mem_range, decide_eq_true_eq] at hr
    obtain ⟨i, ⟨hiR, hiA, hiB⟩, j, ⟨hjR, hjA, hjB⟩, hrEq⟩ := hr
    subst hrEq
    rw [Nat.mul_succ] at hiB hjB
    exact ⟨rfl, hiA, hiB, hjA, hjB⟩
  · exact Except.noConfusion hok

/-- Witness for C8: realizing a 2×2 slice of the sample level-0 array. -/
theorem compute_reads_discipline_witness :
    (sliceYX exArr1 0 2 0 2).2 = [] :=
  (compute_reads_discipline exS1 0 exArr1 0 2 0 2
    { level := 0, x := 0, y := 0, w := 2, h := 2 } { num := 2, den := 1 }
    rfl (by decide)).1

/-- Claim C6: `to_dask(1.0)` realized in full equals `level_to_dask(0)`
realized in full — the same presented shape and identical pixel values
at native resolution. -/
theorem to_dask_native_eq_level_zero (s : ImageServer) (hv : validServer s) :
    ∃ arr0, levelToDask s 0 = Except.ok arr0 ∧
      (toDask s { num := 1, den := 1 }).dims = arr0.dims ∧
      Tensor.eqOn (computeVals s (toDask s { num := 1, den := 1 }))
        (computeVals s arr0) := by
  obtain ⟨hne, hpos, -, -, -⟩ := hv
  obtain ⟨sh, rest, hsh⟩ := List.exists_cons_of_ne_nil hne
  have hpos0 := hpos sh (by rw [hsh]; exact List.mem_cons_self _ _)
  have hn : nearestLevel s.metadata.downsamples { num := 1, den := 1 } = 0 :=
    nearestLevel_downsamples_one s.metadata hne
  have hL0 : 0 < s.metadata.n_resolutions := by
    unfold ImageMetadata.n_resolutions
    rw [hsh]
    exact Nat.succ_pos _
  have hget : s.metadata.shapes.getD 0 default = sh := by
    rw [hsh]
    rfl
  have hfull : s.metadata.fullShape = sh := by
    unfold ImageMetadata.fullShape
    rw [hsh]
    rfl
  have h1 : roundHalfEvenNat (sh.y * 1) 1 = sh.y :=
    roundHalfEvenNat_mul_cancel sh.y 1 Nat.one_pos
  have h2 : roundHalfEvenNat (sh.x * 1) 1 = sh.x :=
    roundHalfEvenNat_mul_cancel sh.x 1 Nat.one_pos
  have hok : levelToDask s 0 = Except.ok
      { source := .level 0, t := sh.t, z := sh.z, c0 := 0, c1 := sh.c,
        y0 := 0, y1 := sh.y, x0 := 0, x1 := sh.x } := by
    unfold levelToDask
    rw [dif_pos hL0]
    have hg : s.metadata.shapes.get ⟨0, hL0⟩ = sh := by
      simp [hsh]
    rw [hg]
  have htd : toDask s { num := 1, den := 1 } =
      { source := .resampled 0 sh.y sh.x sh.y sh.x, t := sh.t, z := sh.z,
        c0 := 0, c1 := sh.c, y0 := 0, y1 := sh.y, x0 := 0, x1 := sh.x } := by
    simp only [toDask, toDaskShape, hn, hget, hfull, h1, h2]
  refine ⟨_, hok, ?_, ?_⟩
  · rw [htd]
    rfl
  · rw [htd]
    refine ⟨rfl, rfl, rfl, rfl, ?_⟩
    intro c hc i hi j hj
    simp only [computeVals]
    rw [Nat.zero_add, Nat.zero_add, Nat.zero_add,
      Nat.mul_div_cancel i hpos0.2, Nat.mul_div_cancel j hpos0.1]

/-- Witness for C6: the equality realized on the concrete sample
server. -/
theorem to_dask_native_eq_level_zero_witness :
    ∃ arr0, levelToDask exS1 0 = Except.ok arr0 ∧
      (toDask exS1 { num := 1, den := 1 }).dims = arr0.dims ∧
      Tensor.eqOn (computeVals exS1 (toDask exS1 { num := 1, den := 1 }))
        (computeVals exS1 arr0) :=
  to_dask_native_eq_level_zero exS1 (by decide)

/-- Claim C1 (counterexample): on a concrete two-level pyramid, for the
valid level index 1 and the in-bounds rectangle (x=0, y=0, w=2, h=2),
realizing `level_to_dask(1)[:, 0:2, 0:2]` does not yield the pixel
values of `read_region(metadata.downsamples[1], 0, 0, 2, 2)`: the slice
indexes level-1 pixel coordinates while `read_region` interprets the
rectangle in the full-resolution frame, so the two tiles have different
spatial dimensions (2×2 versus 1×1). -/
theorem level_slice_vs_read_region_cex :
    levelToDask exS2 1 = Except.ok exArrL1 ∧
    exS2.metadata.downsamples.getD 1 { num := 1, den := 1 } =
      { num := 4, den := 2 } ∧
    ∃ t, readRegion exS2 { num := 4, den := 2 } 0 0 2 2 = Except.ok t ∧
      ¬ Tensor.eqOn (computeVals exS2 (sliceYX exArrL1 0 2 0 2).1) t := by
  refine ⟨by decide, by decide, _, rfl, by decide⟩

/-- Claim C1 (amended): at level 0 — whose downsample factor is 1, so
that level coordinates and full-resolution coordinates coincide — for
every in-bounds rectangle, realizing `level_to_dask(0)[:, y:y+h, x:x+w]`
yields pixel values identical to
`read_region(metadata.downsamples[0], x, y, w, h)`. -/
theorem level_slice_matches_read_region_native (s : ImageServer)
    (hv : validServer s) (x y w h : Nat) (hw : 0 < w) (hh : 0 < h)
    (hxw : x + w ≤ s.metadata.fullShape.x)
    (hyh : y + h ≤ s.metadata.fullShape.y)
    (arr : DaskArray) (hok : levelToDask s 0 = Except.ok arr) (t : Tensor)
    (hrr : readRegion s (s.metadata.downsamples.getD 0 { num := 1, den := 1 })
      x y w h = Except.ok t) :
    Tensor.eqOn (computeVals s (sliceYX arr y (y + h) x (x + w)).1) t := by
  obtain ⟨hne, hpos, -, -, -⟩ := hv
  obtain ⟨sh, rest, hsh⟩ := List.exists_cons_of_ne_nil hne
  have hpos0 := hpos sh (by rw [hsh]; exact List.mem_cons_self _ _)
  have hL0 : 0 < s.metadata.n_resolutions := by
    unfold ImageMetadata.n_resolutions
    rw [hsh]
    exact Nat.succ_pos _
  have hget : s.metadata.shapes.getD 0 default = sh := by
    rw [hsh]
    rfl
  have hfull : s.metadata.fullShape = sh := by
    unfold ImageMetadata.fullShape
    rw [hsh]
    rfl
  have hd : s.metadata.downsamples.getD 0 { num := 1, den := 1 } =
      { num := sh.x, den := sh.x } := by
    unfold ImageMetadata.downsamples
    rw [hsh, List.map_cons, List.getD_cons_zero, hfull]
  have hnear : nearestLevel s.metadata.downsamples { num := sh.x, den := sh.x } = 0 := by
    have hn0 := downsamples_head_self s.metadata sh rest hsh
    rw [hd] at hn0
    exact hn0
  rw [hfull] at hxw hyh
  -- identify the array produced by level_to_dask(0)
  have hok0 : levelToDask s 0 = Except.ok
      { source := .level 0, t := sh.t, z := sh.z, c0 := 0, c1 := sh.c,
        y0 := 0, y1 := sh.y, x0 := 0, x1 := sh.x } := by
    unfold levelToDask
    rw [dif_pos hL0]
    have hg : s.metadata.shapes.get ⟨0, hL0⟩ = sh := by
      simp [hsh]
    rw [hg]
  rw [hok0] at hok
  injection hok with hok
  subst hok
  -- evaluate read_region at the native downsample
  rw [hd] at hrr
  simp only [readRegion] at hrr
  rw [hfull, hnear, hd, hget] at hrr
  rw [if_neg (by omega)] at hrr
  injection hrr with hrr
  subst hrr
  have hxa : (((x : Int)) ⊔ 0).toNat = x := by omega
  have hya : (((y : Int)) ⊔ 0).toNat = y := by omega
  have hwc : (((x : Int) + w) ⊓ (sh.x : Int) - (x : Int) ⊔ 0).toNat = w := by
    omega
  have hhc : (((y : Int) + h) ⊓ (sh.y : Int) - (y : Int) ⊔ 0).toNat = h := by
    omega
  rw [hxa, hya, hwc, hhc]
  rw [roundHalfEvenNat_mul_cancel w sh.x hpos0.1,
    roundHalfEvenNat_mul_cancel h sh.x hpos0.1,
    roundHalfEvenNat_mul_cancel x sh.x hpos0.1,
    roundHalfEvenNat_mul_cancel y sh.x hpos0.1]
  -- evaluate the slice of the level-0 array
  have hy0 : min (0 + y) sh.y = y := by omega
  have hy1 : min (0 + (y + h)) sh.y = y + h := by omega
  have hx0 : min (0 + x) sh.x = x := by omega
  have hx1 : min (0 + (x + w)) sh.x = x + w := by omega
  simp only [sliceYX, computeVals]
  rw [hy0, hy1, hx0, hx1]
  refine ⟨?_, ?_, ?_, rfl, ?_⟩
  · simp
  · simp
  · simp
  · intro c hc i hi j hj
    simp only [Nat.zero_add]
    rw [Nat.mul_div_cancel i hh, Nat.mul_div_cancel j hw]

/-- Witness for C1 (amended): a concrete in-bounds tile on the sample
server. -/
theorem level_slice_matches_read_region_native_witness :
    ∃ t, readRegion exS1
        (exS1.metadata.downsamples.getD 0 { num := 1, den := 1 }) 1 1 2 2 =
        Except.ok t ∧
      Tensor.eqOn (computeVals exS1 (sliceYX exArr1 1 3 1 3).1) t := by
  refine ⟨_, rfl, ?_⟩
  exact level_slice_matches_read_region_native exS1 (by decide) 1 1 2 2
    (by decide) (by decide) (by decide) (by decide) exArr1 rfl _ rfl
